import Mathlib

/-!
Verification of the intelliDocs backend document-classification and heuristic
scoring engine (`app/ats_service.py`, `app/ai_service.py`).

Documents are modelled as lists of characters (`List Char`).  Python string
operations are embedded over the ASCII fragment: `str.lower` is `Char.toLower`,
`str.split()` splits on runs of ASCII whitespace, `str.strip()` drops ASCII
whitespace at both ends.  Python `float` arithmetic inside the scorers is
modelled with exact rationals (`ℚ`); `int(x)` on the non-negative values that
occur is the floor.  The regular expressions used by the services are embedded
with a small backtracking matcher (`RE` below) whose candidate order follows
the Python `re` module: alternation tries the left branch first, greedy
repetition tries the longest run first, so the head of the candidate list is
the match Python would produce.
-/

/-! ## Character classes (ASCII model of the Python/`re` classes) -/

/-- ASCII whitespace, the characters of Python `\s` and of `str.split()` /
`str.strip()` on ASCII text: space, tab, newline, carriage return,
vertical tab, form feed. -/
def isSpaceChar (c : Char) : Bool :=
  c = ' ' || c = '\t' || c = '\n' || c = '\r' || c = Char.ofNat 11 || c = Char.ofNat 12

/-- ASCII letters. -/
def isAsciiAlpha (c : Char) : Bool :=
  ('a' ≤ c && c ≤ 'z') || ('A' ≤ c && c ≤ 'Z')

/-- ASCII lowercase letters, the class `[a-z]`. -/
def isLowerAlpha (c : Char) : Bool := 'a' ≤ c && c ≤ 'z'

/-- ASCII digits, the class `\d`. -/
def isDigitChar (c : Char) : Bool := '0' ≤ c && c ≤ '9'

/-- Word characters, the class `\w` = `[A-Za-z0-9_]`. -/
def isWordChar (c : Char) : Bool := isAsciiAlpha c || isDigitChar c || c = '_'

/-- `str.lower()` on the ASCII fragment. -/
def lowerList (s : List Char) : List Char := s.map Char.toLower

/-- Case-insensitive character comparison used by `re.IGNORECASE` patterns. -/
def ciEq (a b : Char) : Bool := a.toLower = b.toLower

/-! ## Basic list/string helpers -/

/-- Does `s` start with `pat` (exact comparison)? -/
def startsWithList : List Char → List Char → Bool
  | [], _ => true
  | _ :: _, [] => false
  | a :: as, b :: bs => a = b && startsWithList as bs

/-- Python `pat in s`: `pat` occurs as a contiguous substring of `s`. -/
def containsSub (pat : List Char) (s : List Char) : Bool :=
  startsWithList pat s ||
    match s with
    | [] => false
    | _ :: t => containsSub pat t

/-- Python `str.strip()` (ASCII whitespace). -/
def stripList (s : List Char) : List Char :=
  ((s.dropWhile isSpaceChar).reverse.dropWhile isSpaceChar).reverse

/-- Python `str.split()` with no separator: the maximal runs of
non-whitespace characters, empty fragments discarded. -/
def wordsOfAux (cur : List Char) : List Char → List (List Char)
  | [] => if cur = [] then [] else [cur.reverse]
  | c :: t =>
    if isSpaceChar c then
      if cur = [] then wordsOfAux [] t else cur.reverse :: wordsOfAux [] t
    else wordsOfAux (c :: cur) t

/-- The words of a document, per Python `text.split()`. -/
def wordsOf (s : List Char) : List (List Char) := wordsOfAux [] s

/-- `len(text.split())`. -/
def wordCount (s : List Char) : Nat := (wordsOf s).length

/-- Python `' '.join(ws)`. -/
def joinSpace : List (List Char) → List Char
  | [] => []
  | [w] => w
  | w :: ws => w ++ ' ' :: joinSpace ws

/-! ## A small backtracking regex matcher

Expressions cover exactly the constructs appearing in the service patterns:
single-character classes, literal sequences, sequencing, alternation,
greedy repetition of a character class (`*`, `+`, `?`, `{lo,hi}`, `{lo,}`),
and the word-boundary assertion `\b`.  Since every repetition ranges over a
single character class, matching is structurally terminating. -/

inductive RE where
  | eps : RE
  | cls (p : Char → Bool) : RE
  | seq (a b : RE) : RE
  | alt (a b : RE) : RE
  | starCls (p : Char → Bool) : RE
  | plusCls (p : Char → Bool) : RE
  | optCls (p : Char → Bool) : RE
  | repRange (lo hi : Nat) (p : Char → Bool) : RE
  | repAtLeast (lo : Nat) (p : Char → Bool) : RE
  | boundary : RE

/-- The `\b` assertion: the two sides disagree on `\w` membership
(a missing side counts as non-word). -/
def atBoundary (prev : Option Char) (s : List Char) : Bool :=
  let l := match prev with | none => false | some c => isWordChar c
  let r := match s with | [] => false | c :: _ => isWordChar c
  l != r

/-- Candidate states after consuming `j` characters of the maximal run of
`p`-characters at the head of `s`, longest first (greedy order), down to
`lo`.  Each state is the character just before the remaining suffix plus the
suffix itself. -/
def greedyRun (p : Char → Bool) (lo : Nat) (hi : Option Nat) (prev : Option Char)
    (s : List Char) : List (Option Char × List Char) :=
  let run := s.takeWhile p
  let maxN := match hi with | none => run.length | some h => min run.length h
  if maxN < lo then []
  else
    ((List.range (maxN + 1 - lo)).map fun i =>
      let j := maxN - i
      (if j = 0 then prev else (s.take j).getLast? , s.drop j))

/-- All ways to match `r` at the start of `s` (the character preceding `s`
is `prev`), in Python backtracking priority order: each candidate is the
last consumed character and the remaining suffix.  The head of the list is
the match the `re` module would commit to. -/
def matchRE : RE → Option Char → List Char → List (Option Char × List Char)
  | .eps, prev, s => [(prev, s)]
  | .cls p, _, s =>
    match s with
    | [] => []
    | c :: t => if p c then [(some c, t)] else []
  | .seq a b, prev, s =>
    (matchRE a prev s).flatMap fun pr => matchRE b pr.1 pr.2
  | .alt a b, prev, s => matchRE a prev s ++ matchRE b prev s
  | .starCls p, prev, s => greedyRun p 0 none prev s
  | .plusCls p, prev, s => greedyRun p 1 none prev s
  | .optCls p, prev, s => greedyRun p 0 (some 1) prev s
  | .repRange lo hi p, prev, s => greedyRun p lo (some hi) prev s
  | .repAtLeast lo p, prev, s => greedyRun p lo none prev s
  | .boundary, prev, s => if atBoundary prev s then [(prev, s)] else []

/-- Sequencing of a list of expressions. -/
def seqList (rs : List RE) : RE := rs.foldr RE.seq RE.eps

/-- Alternation of a list of expressions (first alternative preferred). -/
def altList : List RE → RE
  | [] => RE.cls fun _ => false
  | [r] => r
  | r :: rs => RE.alt r (altList rs)

/-- A case-sensitive literal. -/
def litCS (w : List Char) : RE := seqList (w.map fun c => RE.cls fun x => x = c)

/-- A case-insensitive literal (for `(?i)` patterns). -/
def litCI (w : List Char) : RE := seqList (w.map fun c => RE.cls fun x => ciEq x c)

/-- `re.search`: does `r` match starting at some position of `s`? -/
def searchAux (r : RE) : Nat → Option Char → List Char → Bool
  | 0, _, _ => false
  | fuel + 1, prev, s =>
    !(matchRE r prev s).isEmpty ||
      match s with
      | [] => false
      | c :: t => searchAux r fuel (some c) t

/-- `bool(re.search(r, text))`. -/
def searchRE (r : RE) (text : List Char) : Bool :=
  searchAux r (text.length + 1) none text

/-- `re.finditer`: all non-overlapping matches of `r` in `s`, scanning left
to right, each reported as the matched substring (`group(0)`). -/
def findIterAux (r : RE) : Nat → Option Char → List Char → List (List Char)
  | 0, _, _ => []
  | fuel + 1, prev, s =>
    match (matchRE r prev s).head? with
    | some (p', rest) =>
      let k := s.length - rest.length
      if k = 0 then
        match s with
        | [] => []
        | c :: t => findIterAux r fuel (some c) t
      else s.take k :: findIterAux r fuel p' rest
    | none =>
      match s with
      | [] => []
      | c :: t => findIterAux r fuel (some c) t

/-- The `group(0)` strings of `re.finditer(r, text)`. -/
def findIterRE (r : RE) (text : List Char) : List (List Char) :=
  findIterAux r (text.length + 1) none text

/-! ## `app/ats_service.py`: vocabulary tables -/

/-- `TECH_SKILLS`: the fixed per-category technical-skill vocabulary. -/
def TECH_SKILLS : List (String × List (List Char)) :=
  [ ("languages", ["python", "java", "javascript", "typescript", "c++", "c#", "ruby", "php",
      "swift", "kotlin", "go", "rust", "scala"].map String.toList),
    ("frameworks", ["react", "angular", "vue", "django", "flask", "spring", "node.js",
      "express", "fastapi", "rails", "laravel"].map String.toList),
    ("cloud", ["aws", "azure", "gcp", "docker", "kubernetes", "terraform", "jenkins",
      "ci/cd", "devops"].map String.toList),
    ("databases", ["sql", "mysql", "postgresql", "mongodb", "redis", "dynamodb",
      "cassandra", "oracle"].map String.toList),
    ("tools", ["git", "jira", "confluence", "postman", "swagger", "linux", "agile",
      "scrum"].map String.toList),
    ("ai_ml", ["machine learning", "deep learning", "nlp", "tensorflow", "pytorch",
      "scikit-learn", "pandas", "numpy"].map String.toList) ]

/-- `SOFT_SKILLS`. -/
def SOFT_SKILLS : List (List Char) :=
  ["leadership", "communication", "teamwork", "problem solving", "analytical",
   "collaboration", "project management", "time management", "adaptability",
   "critical thinking", "creativity", "attention to detail"].map String.toList

/-! ## Contact-information regexes -/

/-- The class `[A-Za-z0-9._%+-]` of the email local part. -/
def emailLocalCls (c : Char) : Bool :=
  isAsciiAlpha c || isDigitChar c || c = '.' || c = '_' || c = '%' || c = '+' || c = '-'

/-- The class `[A-Za-z0-9.-]` of the email domain part. -/
def emailDomainCls (c : Char) : Bool :=
  isAsciiAlpha c || isDigitChar c || c = '.' || c = '-'

/-- The class `[A-Z|a-z]` of the email top-level-domain part (the source
pattern literally includes the bar character). -/
def emailTldCls (c : Char) : Bool := isAsciiAlpha c || c = '|'

/-- The email pattern of `extract_contact_info` and `detect_document_type`. -/
def emailRE : RE :=
  seqList [RE.boundary, RE.plusCls emailLocalCls, RE.cls (fun c => c = '@'),
    RE.plusCls emailDomainCls, RE.cls (fun c => c = '.'),
    RE.repAtLeast 2 emailTldCls, RE.boundary]

/-- The class `[-.]` of the optional phone separators. -/
def dashDotCls (c : Char) : Bool := c = '-' || c = '.'

/-- The phone pattern of both services. -/
def phoneRE : RE :=
  seqList [RE.boundary, RE.repRange 3 3 isDigitChar, RE.optCls dashDotCls,
    RE.repRange 3 3 isDigitChar, RE.optCls dashDotCls,
    RE.repRange 4 4 isDigitChar, RE.boundary]

/-- Presence of either contact pattern anywhere in the text, the condition
under which `detect_document_type` awards its +2 bonus and the two contact
sub-scores of `calculate_ats_score` fire. -/
def hasEmailIn (text : List Char) : Bool := searchRE emailRE text

/-- Presence of the phone pattern anywhere in the text. -/
def hasPhoneIn (text : List Char) : Bool := searchRE phoneRE text

/-! ## `detect_document_type` -/

/-- The resume-indicator vocabulary. -/
def resume_keywords : List (List Char) :=
  ["education", "experience", "skills", "objective", "summary",
   "certifications", "projects", "work history", "professional experience",
   "bachelor", "master", "phd", "degree", "university", "college",
   "resume", "cv", "curriculum vitae"].map String.toList

/-- The transcript-indicator vocabulary. -/
def transcript_keywords : List (List Char) :=
  ["meeting", "attendees", "discussion", "action items", "agenda",
   "minutes", "decisions", "next steps", "follow-up", "adjourned",
   "meeting notes", "participants", "date:", "time:"].map String.toList

/-- `sum(1 for keyword in kws if keyword in text_lower)`. -/
def keywordHits (kws : List (List Char)) (textLower : List Char) : Nat :=
  (kws.filter fun k => containsSub k textLower).length

/-- The resume score of `detect_document_type`: keyword hits plus the +2
contact bonus. -/
def resumeScoreOf (text : List Char) : Nat :=
  keywordHits resume_keywords (lowerList text) +
    (if hasEmailIn text || hasPhoneIn text then 2 else 0)

/-- The transcript score of `detect_document_type`. -/
def transcriptScoreOf (text : List Char) : Nat :=
  keywordHits transcript_keywords (lowerList text)

/-- `detect_document_type`: label resume only on a strictly greater resume
score, transcript otherwise. -/
def detect_document_type (text : List Char) : String :=
  if resumeScoreOf text > transcriptScoreOf text then "resume" else "transcript"

/-! ## `extract_skills` -/

/-- The technical part of `extract_skills`: for each category, the vocabulary
skills occurring in the lower-cased text, the category omitted when the list
is empty (the Python dict only receives categories with a non-empty match
list). -/
def extractSkillsTechnical (text : List Char) : List (String × List (List Char)) :=
  TECH_SKILLS.filterMap fun cs =>
    let found := cs.2.filter fun sk => containsSub sk (lowerList text)
    if found = [] then none else some (cs.1, found)

/-- The soft part of `extract_skills`. -/
def extractSkillsSoft (text : List Char) : List (List Char) :=
  SOFT_SKILLS.filter fun sk => containsSub sk (lowerList text)

/-- `sum(len(skills_list) for skills_list in skills['technical'].values()) +
len(skills['soft'])`, the skill total used by `calculate_ats_score`. -/
def totalSkillCount (text : List Char) : Nat :=
  ((extractSkillsTechnical text).map fun p => p.2.length).sum +
    (extractSkillsSoft text).length

/-! ## `extract_education` (the score only consumes non-emptiness) -/

/-- The class `['\w\s]` inside the degree patterns. -/
def eduWordCls (c : Char) : Bool := c = '\'' || isWordChar c || isSpaceChar c

/-- The class `[.]` for the optional literal dots. -/
def dotCls (c : Char) : Bool := c = '.'

/-- The bachelor-family pattern. -/
def bachelorRE : RE := altList
  [ RE.seq (litCI "bachelor".toList) (RE.starCls eduWordCls),
    seqList [litCI "b".toList, RE.optCls dotCls, litCI "s".toList, RE.optCls dotCls],
    seqList [litCI "b".toList, RE.optCls dotCls, litCI "a".toList, RE.optCls dotCls],
    seqList [litCI "b".toList, RE.optCls dotCls, litCI "tech".toList, RE.optCls dotCls] ]

/-- The master-family pattern. -/
def masterRE : RE := altList
  [ RE.seq (litCI "master".toList) (RE.starCls eduWordCls),
    seqList [litCI "m".toList, RE.optCls dotCls, litCI "s".toList, RE.optCls dotCls],
    seqList [litCI "m".toList, RE.optCls dotCls, litCI "a".toList, RE.optCls dotCls],
    seqList [litCI "m".toList, RE.optCls dotCls, litCI "tech".toList, RE.optCls dotCls],
    litCI "mba".toList ]

/-- The doctorate-family pattern. -/
def phdRE : RE := altList
  [ seqList [litCI "ph".toList, RE.optCls dotCls, litCI "d".toList, RE.optCls dotCls],
    litCI "doctorate".toList ]

/-- Non-emptiness of `extract_education`: some degree-family pattern matches
somewhere in the text. -/
def hasEducation (text : List Char) : Bool :=
  searchRE bachelorRE text || searchRE masterRE text || searchRE phdRE text

/-! ## `extract_experience_years` -/

/-- Numeric value of an ASCII digit. -/
def digitVal (c : Char) : Nat := c.toNat - 48

/-- The end alternative `(19|20)\d{2}` of the year-range pattern; returns the
year, the last matched character and the suffix. -/
def parseEndYear (s : List Char) : Option (Int × Char × List Char) :=
  match s with
  | e1 :: e2 :: f1 :: f2 :: rest =>
    if ((e1 = '1' && e2 = '9') || (e1 = '2' && e2 = '0')) && isDigitChar f1 && isDigitChar f2
    then some (((digitVal e1 * 1000 + digitVal e2 * 100 + digitVal f1 * 10 + digitVal f2 : Nat) : Int),
               f2, rest)
    else none
  | _ => none

/-- Consume the case-insensitive literal `w` at the head of `s`. -/
def dropCI (w : List Char) (s : List Char) : Option (List Char) :=
  match w, s with
  | [], rest => some rest
  | _ :: _, [] => none
  | a :: as, b :: bs => if ciEq b a then dropCI as bs else none

/-- The end part `((19|20)\d{2}|Present|Current)`, alternatives in pattern
order; `Present`/`Current` resolve to the fixed reference year 2025 as in
the source. -/
def parseEndPart (s : List Char) : Option (Int × Char × List Char) :=
  match parseEndYear s with
  | some r => some r
  | none =>
    match dropCI "present".toList s with
    | some rest => some (2025, 't', rest)
    | none =>
      match dropCI "current".toList s with
      | some rest => some (2025, 't', rest)
      | none => none

/-- Match `\b(19|20)(\d{2})\s*[-–—]\s*((19|20)\d{2}|Present|Current)\b` at
one position: returns start year, resolved end year, last matched character
and the suffix after the match.  All alternation branches of the pattern are
first-character disjoint and every greedy run is followed by a character
outside its class, so the backtracking match is this deterministic parse. -/
def parseYearRangeAt (prev : Option Char) (s : List Char) :
    Option (Int × Int × Char × List Char) :=
  if (match prev with | none => false | some c => isWordChar c) then none
  else
    match s with
    | c1 :: c2 :: d1 :: d2 :: rest =>
      if ((c1 = '1' && c2 = '9') || (c1 = '2' && c2 = '0')) &&
          isDigitChar d1 && isDigitChar d2 then
        let startYear : Int :=
          ((digitVal c1 * 1000 + digitVal c2 * 100 + digitVal d1 * 10 + digitVal d2 : Nat) : Int)
        match (rest.dropWhile isSpaceChar) with
        | dash :: afterDash =>
          if dash = '-' || dash = '–' || dash = '—' then
            match parseEndPart (afterDash.dropWhile isSpaceChar) with
            | some (endYear, lastC, rest2) =>
              if (match rest2 with | [] => true | c :: _ => !isWordChar c)
              then some (startYear, endYear, lastC, rest2)
              else none
            | none => none
          else none
        | [] => none
      else none
    | _ => none

/-- The positive year differences collected by the `finditer` loop of
`extract_experience_years`, in scan order. -/
def yearDiffsAux : Nat → Option Char → List Char → List Int
  | 0, _, _ => []
  | fuel + 1, prev, s =>
    match parseYearRangeAt prev s with
    | some (sy, ey, lastC, rest) =>
      let tail := yearDiffsAux fuel (some lastC) rest
      if ey - sy > 0 then (ey - sy) :: tail else tail
    | none =>
      match s with
      | [] => []
      | c :: t => yearDiffsAux fuel (some c) t

/-- `extract_experience_years`: the sum of the positive year-range
differences (0 when none). -/
def extract_experience_years (text : List Char) : Int :=
  (yearDiffsAux (text.length + 1) none text).sum

/-! ## `check_resume_sections` -/

/-- Presence flags of the six essential resume sections. -/
structure SectionFlags where
  contact_info : Bool
  summarySec : Bool
  experienceSec : Bool
  educationSec : Bool
  skillsSec : Bool
  projectsSec : Bool
deriving DecidableEq

/-- The contact probe `@|phone|email|\d{3}[-.]?\d{3}`, searched on the raw
(not lower-cased) text. -/
def contactProbeRE : RE := altList
  [ litCS "@".toList, litCS "phone".toList, litCS "email".toList,
    seqList [RE.repRange 3 3 isDigitChar, RE.optCls dashDotCls,
      RE.repRange 3 3 isDigitChar] ]

/-- Does any of the alternative literal keywords occur in the text? -/
def containsAnySub (pats : List (List Char)) (s : List Char) : Bool :=
  pats.any fun p => containsSub p s

/-- `check_resume_sections`. -/
def check_resume_sections (text : List Char) : SectionFlags :=
  let tl := lowerList text
  { contact_info := searchRE contactProbeRE text,
    summarySec := containsAnySub (["summary", "objective", "profile"].map String.toList) tl,
    experienceSec := containsAnySub (["experience", "work history", "employment"].map String.toList) tl,
    educationSec := containsAnySub (["education", "degree", "university", "college"].map String.toList) tl,
    skillsSec := containsAnySub (["skills", "technologies", "technical skills"].map String.toList) tl,
    projectsSec := containsAnySub (["projects", "portfolio"].map String.toList) tl }

/-- `sum(sections.values())`. -/
def sectionCount (s : SectionFlags) : Nat :=
  (if s.contact_info then 1 else 0) + (if s.summarySec then 1 else 0) +
  (if s.experienceSec then 1 else 0) + (if s.educationSec then 1 else 0) +
  (if s.skillsSec then 1 else 0) + (if s.projectsSec then 1 else 0)

/-! ## `calculate_keyword_match` -/

/-- Maximal runs of word characters. -/
def wordRunsAux (cur : List Char) : List Char → List (List Char)
  | [] => if cur = [] then [] else [cur.reverse]
  | c :: t =>
    if isWordChar c then wordRunsAux (c :: cur) t
    else if cur = [] then wordRunsAux [] t
    else cur.reverse :: wordRunsAux [] t

/-- `re.findall(r'\b[a-z]{3,}\b', s)` on an already lower-cased text: the
maximal word-character runs consisting solely of `[a-z]` with length at
least 3 (a run containing a digit or underscore offers no word boundary for
a shorter match inside it). -/
def alphaTokens (s : List Char) : List (List Char) :=
  (wordRunsAux [] s).filter fun r => 3 ≤ r.length && r.all isLowerAlpha

/-- The fixed stop-word set removed from the job-description token set. -/
def STOP_WORDS : List (List Char) :=
  ["the", "and", "for", "with", "this", "that", "will", "have", "from", "are", "can"].map
    String.toList

/-- `calculate_keyword_match`: the share of job-description tokens also
present in the resume, scaled to a percentage and truncated. -/
def calculate_keyword_match (resumeText jdText : List Char) : ℤ :=
  let resumeWords := (alphaTokens (lowerList resumeText)).dedup
  let jdWords := ((alphaTokens (lowerList jdText)).dedup).filter
    fun w => !(STOP_WORDS.contains w)
  let matched := jdWords.filter fun w => resumeWords.contains w
  let matchRatio : ℚ :=
    if jdWords = [] then 0 else (matched.length : ℚ) / (jdWords.length : ℚ)
  ⌊matchRatio * 100⌋

/-! ## `calculate_ats_score` -/

/-- Contact sub-factor: +8 for an email, +7 for a phone number. -/
def contactPts (email phone : Bool) : ℚ :=
  (if email then 8 else 0) + (if phone then 7 else 0)

/-- Sections sub-factor: `sum(sections.values()) / len(sections) * 25`. -/
def sectionPts (n : Nat) : ℚ := (n : ℚ) / 6 * 25

/-- Skills sub-factor tiering. -/
def skillPts (n : Nat) : ℚ :=
  if n > 15 then 20 else if n > 10 then 15 else if n > 5 then 10 else 5

/-- Education sub-factor: +15 when any education entry was found. -/
def eduPts (b : Bool) : ℚ := if b then 15 else 0

/-- Experience sub-factor tiering. -/
def expPts (y : Int) : ℚ :=
  if y > 5 then 15 else if y > 2 then 10 else if y > 0 then 5 else 0

/-- Word-count sub-factor: the source uses strict comparisons
`400 < word_count < 800` and `300 < word_count < 1000`. -/
def wordCountPoints (w : Nat) : ℚ :=
  if 400 < w ∧ w < 800 then 10 else if 300 < w ∧ w < 1000 then 7 else 3

/-- The sub-factor values `calculate_ats_score` extracts from its inputs
before combining them. -/
structure AtsInput where
  email : Bool
  phone : Bool
  sections : SectionFlags
  skillTotal : Nat
  edu : Bool
  expYears : Int
  wc : Nat
  matchScore : Option Int

/-- The accumulated score before the optional job-description blending. -/
def atsBase (f : AtsInput) : ℚ :=
  contactPts f.email f.phone + sectionPts (sectionCount f.sections) +
    skillPts f.skillTotal + eduPts f.edu + expPts f.expYears +
    wordCountPoints f.wc

/-- The final combination: optional blending
`int(score * 0.7 + match_score * 0.3)` followed by
`min(int(score), max_score)`. -/
def atsScoreCore (f : AtsInput) : ℤ :=
  let blended : ℤ :=
    match f.matchScore with
    | none => ⌊atsBase f⌋
    | some m => ⌊atsBase f * (7 / 10 : ℚ) + (m : ℚ) * (3 / 10 : ℚ)⌋
  min blended 100

/-- The extractor calls of `calculate_ats_score`. -/
def featuresOf (text : List Char) (jd : Option (List Char)) : AtsInput :=
  { email := hasEmailIn text,
    phone := hasPhoneIn text,
    sections := check_resume_sections text,
    skillTotal := totalSkillCount text,
    edu := hasEducation text,
    expYears := extract_experience_years text,
    wc := wordCount text,
    matchScore := jd.map fun j => calculate_keyword_match text j }

/-- `calculate_ats_score`. -/
def calculate_ats_score (text : List Char) (jd : Option (List Char)) : ℤ :=
  atsScoreCore (featuresOf text jd)

/-! ## `app/ai_service.py`: `summarize_text`

The abstractive summarization backend is an external collaborator; it is
abstracted as a function that either returns the summarizer output list (each
entry the `summary_text` string) or fails with a message.  `Except.error`
marks a raised Python exception; the catch-all `except` of the source turns
any such failure into an ordinary fallback result, so the embedded function
always returns `Except.ok`. -/

/-- The result dictionary of `summarize_text`; dictionary keys absent on a
given path are `none`. -/
structure SummaryResult where
  summary : Option (List Char)
  note : Option String
  original_length : Option Nat
  summary_length : Option Nat
  compression_ratio : Option ℚ
  error : Option String
deriving DecidableEq

/-- Python `round(q, 2)` (round half to even), modelled on exact rationals. -/
def round2 (q : ℚ) : ℚ :=
  let n := q * 100
  let fl := ⌊n⌋
  let fr := n - (fl : ℚ)
  let r : ℤ :=
    if fr < 1 / 2 then fl
    else if (1 / 2 : ℚ) < fr then fl + 1
    else if fl % 2 = 0 then fl else fl + 1
  (r : ℚ) / 100

/-- The body of the `try` block of `summarize_text`: the short-text path,
the 900-word truncation, the summarizer call and the result assembly.  Any
raised exception propagates as `Except.error`. -/
def summarize_body (text : List Char)
    (summarizer : List Char → Nat → Nat → Except String (List (List Char)))
    (maxLength minLength : Nat) : Except String SummaryResult :=
  if wordCount text < 30 then
    .ok { summary := some text,
          note := some "Text is too short to summarize effectively",
          original_length := some (wordCount text),
          summary_length := some (wordCount text),
          compression_ratio := none, error := none }
  else
    let words := wordsOf text
    let text2 := if words.length > 900 then joinSpace (words.take 900) else text
    match summarizer text2 maxLength minLength with
    | .error e => .error e
    | .ok result =>
      match result with
      | [] => .error "IndexError: list index out of range"
      | summaryText :: _ =>
        .ok { summary := some summaryText, note := none,
              original_length := some (wordCount text2),
              summary_length := some (wordCount summaryText),
              compression_ratio :=
                some (round2 ((wordCount summaryText : ℚ) / (wordCount text2 : ℚ))),
              error := none }

/-- `summarize_text`: the `try` body with its catch-all `except`, which
converts any failure into the `{summary: None, error: message}` result. -/
def summarize_text (text : List Char)
    (summarizer : List Char → Nat → Nat → Except String (List (List Char)))
    (maxLength minLength : Nat) : Except String SummaryResult :=
  match summarize_body text summarizer maxLength minLength with
  | .ok r => .ok r
  | .error e =>
    .ok { summary := none, note := some "Summarization failed",
          original_length := none, summary_length := none,
          compression_ratio := none, error := some e }

/-! ## `extract_action_items` -/

/-- Deterministic header patterns: literal pieces, a one-character set, an
optional character.  Each of the four section-header regexes consists only
of such pieces followed by a tail that always succeeds, so backtracking
never revisits these choices. -/
inductive PatItem where
  | lit (s : List Char)
  | oneOf (cs : List Char)
  | optChar (c : Char)

/-- Match a header pattern (case-insensitively) at the head of `s`,
returning the suffix after the header. -/
def matchPat : List PatItem → List Char → Option (List Char)
  | [], s => some s
  | .lit w :: ps, s =>
    match dropCI w s with
    | some rest => matchPat ps rest
    | none => none
  | .oneOf cs :: ps, s =>
    match s with
    | c :: t => if cs.contains c then matchPat ps t else none
    | [] => none
  | .optChar c :: ps, s =>
    match s with
    | b :: t => if ciEq b c then matchPat ps t else matchPat ps s
    | [] => matchPat ps s

/-- The four section-header patterns of `extract_action_items`:
`action items?:?`, `to[- ]do:?`, `tasks?:?`, `next steps?:?`. -/
def actionHeaderPats : List (List PatItem) :=
  [ [.lit "action item".toList, .optChar 's', .optChar ':'],
    [.lit "to".toList, .oneOf ['-', ' '], .lit "do".toList, .optChar ':'],
    [.lit "task".toList, .optChar 's', .optChar ':'],
    [.lit "next step".toList, .optChar 's', .optChar ':'] ]

/-- Index of the first occurrence of a blank line (`\n\n`). -/
def findNlNl : List Char → Option Nat
  | [] => none
  | '\n' :: '\n' :: _ => some 0
  | _ :: t => (findNlNl t).map (· + 1)

/-- `re.finditer` of `(?i)header\s*(.*?)(?:\n\n|\Z)` with `re.DOTALL`:
for each non-overlapping header occurrence, the captured block runs from
after the greedy whitespace run to the first blank line (or the end of the
text), and scanning resumes after the consumed blank line. -/
def sectionBlocksAux (hp : List PatItem) : Nat → List Char → List (List Char)
  | 0, _ => []
  | fuel + 1, s =>
    match matchPat hp s with
    | some afterHeader =>
      let afterWs := afterHeader.dropWhile isSpaceChar
      match findNlNl afterWs with
      | some i => afterWs.take i :: sectionBlocksAux hp fuel (afterWs.drop (i + 2))
      | none => [afterWs]
    | none =>
      match s with
      | [] => []
      | _ :: t => sectionBlocksAux hp fuel t

/-- The captured blocks for one header pattern. -/
def sectionBlocks (hp : List PatItem) (text : List Char) : List (List Char) :=
  sectionBlocksAux hp (text.length + 1) text

/-- `re.split(r'\n[-•*]|\n\d+\.', block)`: fragments between bullet or
numbered-list delimiters. -/
def splitBulletsAux : Nat → List Char → List Char → List (List Char)
  | 0, cur, _ => [cur.reverse]
  | _ + 1, cur, [] => [cur.reverse]
  | fuel + 1, cur, '\n' :: c :: t =>
    if c = '-' || c = '•' || c = '*' then cur.reverse :: splitBulletsAux fuel [] t
    else
      let ds := (c :: t).takeWhile isDigitChar
      match ds, (c :: t).drop ds.length with
      | _ :: _, '.' :: t2 => cur.reverse :: splitBulletsAux fuel [] t2
      | _, _ => splitBulletsAux fuel ('\n' :: cur) (c :: t)
  | fuel + 1, cur, c :: t => splitBulletsAux fuel (c :: cur) t

/-- Split one captured block into candidate items. -/
def splitBullets (block : List Char) : List (List Char) :=
  splitBulletsAux (block.length + 1) [] block

/-- Phase one of `extract_action_items`: the stripped fragments of every
captured section block, kept when longer than 10 characters. -/
def rawActionItemsP1 (text : List Char) : List (List Char) :=
  actionHeaderPats.flatMap fun hp =>
    (sectionBlocks hp text).flatMap fun block =>
      (splitBullets block).filterMap fun it =>
        let s := stripList it
        if s.length > 10 then some s else none

/-- The class `[^.!?\n]`. -/
def isNotSentBreak (c : Char) : Bool := !(c = '.' || c = '!' || c = '?' || c = '\n')

/-- `(?i)(?:need to|must|should|will|going to|have to)\s+([^.!?\n]{10,100})`. -/
def verbPat1 : RE :=
  seqList [altList (["need to", "must", "should", "will", "going to", "have to"].map
      fun w => litCI w.toList),
    RE.plusCls isSpaceChar, RE.repRange 10 100 isNotSentBreak]

/-- `(?i)(?:complete|finish|prepare|review|update|send|schedule)\s+([^.!?\n]{10,100})`. -/
def verbPat2 : RE :=
  seqList [altList (["complete", "finish", "prepare", "review", "update", "send",
      "schedule"].map fun w => litCI w.toList),
    RE.plusCls isSpaceChar, RE.repRange 10 100 isNotSentBreak]

/-- Phase two candidates: the stripped whole matches (`group(0)`) of the two
verb patterns. -/
def verbCandidates (text : List Char) : List (List Char) :=
  ([verbPat1, verbPat2].flatMap fun p => findIterRE p text).map stripList

/-- The phase-two append loop: a candidate joins only when non-empty and not
already present (exact comparison, as in the source). -/
def addVerbItems (acc : List (List Char)) : List (List Char) → List (List Char)
  | [] => acc
  | v :: vs =>
    if v ≠ [] ∧ v ∉ acc then addVerbItems (acc ++ [v]) vs
    else addVerbItems acc vs

/-- The final dedup loop of `extract_action_items`: first occurrence wins,
comparison on the lower-cased item, original casing preserved. -/
def dedupCIAux (seen : List (List Char)) : List (List Char) → List (List Char)
  | [] => []
  | x :: xs =>
    if lowerList x ∈ seen then dedupCIAux seen xs
    else x :: dedupCIAux (lowerList x :: seen) xs

/-- `extract_action_items`. -/
def extract_action_items (text : List Char) : List (List Char) :=
  (dedupCIAux [] (addVerbItems (rawActionItemsP1 text) (verbCandidates text))).take 10

/-! ## `extract_key_decisions` -/

/-- `(?i)(?:decided|agreed|approved|concluded)\s+(?:to|that|on)\s+([^.!?\n]{10,150})`. -/
def decisionPat1 : RE :=
  seqList [altList (["decided", "agreed", "approved", "concluded"].map
      fun w => litCI w.toList),
    RE.plusCls isSpaceChar,
    altList (["to", "that", "on"].map fun w => litCI w.toList),
    RE.plusCls isSpaceChar, RE.repRange 10 150 isNotSentBreak]

/-- `(?i)(?:decision|resolution|agreement):?\s*([^.!?\n]{10,150})`. -/
def decisionPat2 : RE :=
  seqList [altList (["decision", "resolution", "agreement"].map
      fun w => litCI w.toList),
    RE.optCls (fun c => c = ':'), RE.starCls isSpaceChar,
    RE.repRange 10 150 isNotSentBreak]

/-- `(?i)(?:we will|we shall|it was decided)\s+([^.!?\n]{10,150})`. -/
def decisionPat3 : RE :=
  seqList [altList (["we will", "we shall", "it was decided"].map
      fun w => litCI w.toList),
    RE.plusCls isSpaceChar, RE.repRange 10 150 isNotSentBreak]

/-- The decision append loop: a candidate joins only when non-empty and not
already present; the comparison is exact (case-sensitive), unlike the final
dedup of `extract_action_items`. -/
def filterDedup (seen : List (List Char)) : List (List Char) → List (List Char)
  | [] => []
  | d :: ds =>
    if d ≠ [] ∧ d ∉ seen then d :: filterDedup (d :: seen) ds
    else filterDedup seen ds

/-- `extract_key_decisions`. -/
def extract_key_decisions (text : List Char) : List (List Char) :=
  (filterDedup []
    (([decisionPat1, decisionPat2, decisionPat3].flatMap fun p => findIterRE p text).map
      stripList)).take 5

/-! ## `calculate_simple_readability` -/

/-- Split on maximal runs of delimiter characters, keeping the (possibly
empty) fragments between runs, as `re.split(r'[.!?]+', text)` does. -/
def splitRunsAux (p : Char → Bool) (cur : Option (List Char)) :
    List Char → List (List Char)
  | [] =>
    match cur with
    | some c => [c.reverse]
    | none => [[]]
  | ch :: t =>
    if p ch then
      match cur with
      | some c => c.reverse :: splitRunsAux p none t
      | none => splitRunsAux p none t
    else
      match cur with
      | some c => splitRunsAux p (some (ch :: c)) t
      | none => splitRunsAux p (some [ch]) t

/-- The sentence delimiters `[.!?]`. -/
def sentencePunct (c : Char) : Bool := c = '.' || c = '!' || c = '?'

/-- The sentence list of `calculate_simple_readability`: fragments between
punctuation runs, stripped, empty ones discarded. -/
def sentenceList (text : List Char) : List (List Char) :=
  ((splitRunsAux sentencePunct (some []) text).map stripList).filter
    fun s => s ≠ []

/-- `calculate_simple_readability`. -/
def calculate_simple_readability (text : List Char) : ℤ :=
  let sentences := sentenceList text
  if sentences.length = 0 then 50
  else
    let words := wordsOf text
    let avgSentenceLength : ℚ :=
      if sentences.length ≠ 0 then (words.length : ℚ) / (sentences.length : ℚ) else 0
    let lengthScore : ℚ := max 0 (100 - (avgSentenceLength - 15) * 2)
    let complexWords := words.filter fun w => w.length > 7
    let complexityRatio : ℚ :=
      if words.length ≠ 0 then (complexWords.length : ℚ) / (words.length : ℚ) else 0
    let complexityScore : ℚ := max 0 (100 - complexityRatio * 100)
    let readability : ℤ := ⌊(lengthScore + complexityScore) / 2⌋
    max 0 (min 100 readability)

/-! ## Shared lemmas -/

theorem dedupCIAux_nodup (l : List (List Char)) (seen : List (List Char)) :
    ((dedupCIAux seen l).map lowerList).Nodup ∧
      ∀ y ∈ (dedupCIAux seen l).map lowerList, y ∉ seen := by
  induction l generalizing seen with
  | nil => simp [dedupCIAux]
  | cons x xs ih =>
    by_cases h : lowerList x ∈ seen
    · simpa [dedupCIAux, h] using ih seen
    · have hih := ih (lowerList x :: seen)
      simp only [dedupCIAux, if_neg h, List.map_cons, List.nodup_cons, List.mem_cons]
      refine ⟨⟨fun hmem => ?_, hih.1⟩, fun y hy => ?_⟩
      · exact (hih.2 _ hmem) (List.mem_cons_self _ _)
      · rcases hy with hy | hy
        · exact hy ▸ h
        · exact fun hseen => (hih.2 y hy) (List.mem_cons_of_mem _ hseen)

theorem filterDedup_nodup (l : List (List Char)) (seen : List (List Char)) :
    (filterDedup seen l).Nodup ∧ ∀ y ∈ filterDedup seen l, y ∉ seen := by
  induction l generalizing seen with
  | nil => simp [filterDedup]
  | cons d ds ih =>
    by_cases h : d ≠ [] ∧ d ∉ seen
    · have hih := ih (d :: seen)
      simp only [filterDedup, if_pos h, List.nodup_cons, List.mem_cons]
      refine ⟨⟨fun hmem => ?_, hih.1⟩, fun y hy => ?_⟩
      · exact (hih.2 _ hmem) (List.mem_cons_self _ _)
      · rcases hy with hy | hy
        · exact hy ▸ h.2
        · exact fun hseen => (hih.2 y hy) (List.mem_cons_of_mem _ hseen)
    · simpa [filterDedup, if_neg h] using ih seen

/-! ## Claims about `summarize_text` -/

/-- C6: on any text of fewer than 30 whitespace-separated words,
`summarize_text` returns (without raising) the original text as the summary,
the too-short note, and equal original and summary lengths, both the word
count; no error is reported. -/
theorem summarize_short_text (text : List Char)
    (summarizer : List Char → Nat → Nat → Except String (List (List Char)))
    (maxLength minLength : Nat) (h : wordCount text < 30) :
    summarize_text text summarizer maxLength minLength =
      .ok { summary := some text,
            note := some "Text is too short to summarize effectively",
            original_length := some (wordCount text),
            summary_length := some (wordCount text),
            compression_ratio := none, error := none } := by
  unfold summarize_text summarize_body
  simp [h]

theorem summarize_short_text_witness :
    summarize_text "hi".toList (fun _ _ _ => Except.error "X") 150 50 =
      .ok { summary := some "hi".toList,
            note := some "Text is too short to summarize effectively",
            original_length := some (wordCount "hi".toList),
            summary_length := some (wordCount "hi".toList),
            compression_ratio := none, error := none } :=
  summarize_short_text "hi".toList (fun _ _ _ => Except.error "X") 150 50 (by decide)

/-- C7: `summarize_text` never raises: for every text and every behavior of
the summarization backend, the result is an ordinary return (`Except.ok`),
and whenever the `try` body fails with message `e`, the returned dictionary
is `{summary: None, error: e}` with the failure note. -/
theorem summarize_never_raises (text : List Char)
    (summarizer : List Char → Nat → Nat → Except String (List (List Char)))
    (maxLength minLength : Nat) :
    (∃ r, summarize_text text summarizer maxLength minLength = .ok r) ∧
    ∀ e, summarize_body text summarizer maxLength minLength = .error e →
      summarize_text text summarizer maxLength minLength =
        .ok { summary := none, note := some "Summarization failed",
              original_length := none, summary_length := none,
              compression_ratio := none, error := some e } := by
  constructor
  · rcases h : summarize_body text summarizer maxLength minLength with e | r
    · exact ⟨_, by unfold summarize_text; rw [h]⟩
    · exact ⟨r, by unfold summarize_text; rw [h]⟩
  · intro e he
    unfold summarize_text
    rw [he]

theorem summarize_never_raises_witness :
    summarize_text (String.toList (String.intercalate " " (List.replicate 30 "w")))
      (fun _ _ _ => Except.error "boom") 150 50 =
      .ok { summary := none, note := some "Summarization failed",
            original_length := none, summary_length := none,
            compression_ratio := none, error := some "boom" } :=
  (summarize_never_raises (String.toList (String.intercalate " " (List.replicate 30 "w")))
    (fun _ _ _ => Except.error "boom") 150 50).2 "boom" (by rfl)

/-! ## Claim about `detect_document_type` -/

/-- C2: the classifier counts case-insensitive keyword hits against the two
fixed vocabularies, adds exactly 2 to the resume score when an email or
phone pattern occurs anywhere, answers `resume` exactly when the resume
score strictly exceeds the transcript score, answers `transcript` on every
tie, and always returns one of the two labels. -/
theorem detect_document_type_spec (text : List Char) :
    (detect_document_type text = "resume" ∨ detect_document_type text = "transcript") ∧
    (detect_document_type text = "resume" ↔
      resumeScoreOf text > transcriptScoreOf text) ∧
    (resumeScoreOf text = transcriptScoreOf text →
      detect_document_type text = "transcript") ∧
    resumeScoreOf text =
      keywordHits resume_keywords (lowerList text) +
        (if hasEmailIn text || hasPhoneIn text then 2 else 0) ∧
    transcriptScoreOf text = keywordHits transcript_keywords (lowerList text) := by
  unfold detect_document_type
  by_cases h : resumeScoreOf text > transcriptScoreOf text
  · rw [if_pos h]
    exact ⟨Or.inl rfl, ⟨fun _ => h, fun _ => rfl⟩,
      fun he => absurd h (by omega), rfl, rfl⟩
  · rw [if_neg h]
    exact ⟨Or.inr rfl, ⟨fun hc => absurd hc (by decide), fun hlt => absurd hlt h⟩,
      fun _ => rfl, rfl, rfl⟩

theorem detect_document_type_spec_witness :
    detect_document_type ([] : List Char) = "transcript" :=
  (detect_document_type_spec []).2.2.1 (by decide)

/-! ## Claim C3: caps and deduplication of the extractors -/

/-- C3 counterexample: `extract_key_decisions` deduplicates only by exact
comparison, so the same decision in two casings yields two entries that are
equal case-insensitively, contradicting the claim. -/
theorem extract_key_decisions_case_dup :
    ¬ (((extract_key_decisions
        "decided to abcdefghij\nDecided to ABCDEFGHIJ".toList).map lowerList).Nodup) := by
  decide

/-- C3 amended: both extractors respect their caps (10 and 5);
`extract_action_items` contains no two entries equal under case-insensitive
comparison (its final dedup loop compares lower-cased items, first
occurrence winning with original casing); `extract_key_decisions` contains
no two identical entries, but its dedup is exact (case-sensitive), so two
entries may still be equal case-insensitively. -/
theorem extraction_caps_and_dedup (text : List Char) :
    (extract_action_items text).length ≤ 10 ∧
    ((extract_action_items text).map lowerList).Nodup ∧
    (extract_key_decisions text).length ≤ 5 ∧
    (extract_key_decisions text).Nodup := by
  refine ⟨List.length_take_le _ _, ?_, List.length_take_le _ _, ?_⟩
  · unfold extract_action_items
    rw [List.map_take]
    exact List.Nodup.sublist (List.take_sublist _ _) (dedupCIAux_nodup _ _).1
  · unfold extract_key_decisions
    exact List.Nodup.sublist (List.take_sublist _ _) (filterDedup_nodup _ _).1

/-! ## Claim C4: `calculate_simple_readability` -/

/-- The readability formula as the specification words it: 50 when no
sentences remain; otherwise the truncated unweighted average of a length
sub-score losing 2 points per word of average sentence length above 15
(floored at 0) and a complexity sub-score of 100 minus 100 times the
fraction of words longer than 7 characters (floored at 0), the result
clamped to [0, 100]. -/
def readabilitySpec (text : List Char) : ℤ :=
  let s := (sentenceList text).length
  if s = 0 then 50
  else
    let w := (wordsOf text).length
    let avg : ℚ := (w : ℚ) / (s : ℚ)
    let lengthSub : ℚ := max 0 (100 - 2 * (avg - 15))
    let fracLong : ℚ :=
      (((wordsOf text).filter fun x => x.length > 7).length : ℚ) / (w : ℚ)
    let complexitySub : ℚ := max 0 (100 - 100 * fracLong)
    max 0 (min 100 ⌊(lengthSub + complexitySub) / 2⌋)

/-- C4: `calculate_simple_readability` computes exactly the
specification formula: 50 when splitting on runs of sentence punctuation
leaves no non-empty fragment, and otherwise the clamped, truncated average
of the length and complexity sub-scores. -/
theorem calculate_simple_readability_spec (text : List Char) :
    calculate_simple_readability text = readabilitySpec text := by
  unfold calculate_simple_readability readabilitySpec
  by_cases hs : (sentenceList text).length = 0
  · simp [hs]
  · simp only [if_neg hs]
    rw [if_pos hs]
    by_cases hw : (wordsOf text).length = 0
    · rw [if_neg (by simpa using hw), hw]
      push_cast
      rw [div_zero]
      ring_nf
    · rw [if_pos hw]
      ring_nf

/-! ## Claim C5: the word-count sub-factor tiers -/

/-- C5 counterexample: the source compares strictly
(`400 < word_count < 800`), so the boundary word count 400 receives 7
points, not the 10 the claim assigns to the range 400 to 800. -/
theorem word_count_points_boundary_cex :
    wordCountPoints 400 = 7 ∧ (7 : ℚ) ≠ 10 := by
  constructor
  · norm_num [wordCountPoints]
  · norm_num

/-- C5 amended: the tiers are strict: word counts 401 to 799 earn 10
points, word counts 301 to 999 outside that band earn 7, and everything
else earns 3; the boundaries 400 and 800 earn 7, and 300 and 1000 earn 3. -/
theorem word_count_points_tiers (w : Nat) :
    wordCountPoints w =
      (if 401 ≤ w ∧ w ≤ 799 then 10 else if 301 ≤ w ∧ w ≤ 999 then 7 else 3) ∧
    wordCountPoints 400 = 7 ∧ wordCountPoints 800 = 7 ∧
    wordCountPoints 300 = 3 ∧ wordCountPoints 1000 = 3 := by
  refine ⟨?_, by norm_num [wordCountPoints], by norm_num [wordCountPoints],
    by norm_num [wordCountPoints], by norm_num [wordCountPoints]⟩
  unfold wordCountPoints
  have h1 : (400 < w ∧ w < 800) ↔ (401 ≤ w ∧ w ≤ 799) := by omega
  have h2 : (300 < w ∧ w < 1000) ↔ (301 ≤ w ∧ w ≤ 999) := by omega
  rw [if_congr h1 rfl (if_congr h2 rfl rfl)]

/-! ## Lemmas for the ATS score -/

theorem contactPts_nonneg (e p : Bool) : 0 ≤ contactPts e p := by
  unfold contactPts; split_ifs <;> norm_num

theorem sectionPts_nonneg (n : Nat) : 0 ≤ sectionPts n := by
  unfold sectionPts; positivity

theorem skillPts_ge_five (n : Nat) : 5 ≤ skillPts n := by
  unfold skillPts; split_ifs <;> norm_num

theorem eduPts_nonneg (b : Bool) : 0 ≤ eduPts b := by
  unfold eduPts; split_ifs <;> norm_num

theorem expPts_nonneg (y : Int) : 0 ≤ expPts y := by
  unfold expPts; split_ifs <;> norm_num

theorem wordCountPoints_ge_three (w : Nat) : 3 ≤ wordCountPoints w := by
  unfold wordCountPoints; split_ifs <;> norm_num

theorem atsBase_ge_eight (f : AtsInput) : (8 : ℚ) ≤ atsBase f := by
  unfold atsBase
  have h1 := contactPts_nonneg f.email f.phone
  have h2 := sectionPts_nonneg (sectionCount f.sections)
  have h3 := skillPts_ge_five f.skillTotal
  have h4 := eduPts_nonneg f.edu
  have h5 := expPts_nonneg f.expYears
  have h6 := wordCountPoints_ge_three f.wc
  linarith

theorem keyword_match_range (r j : List Char) :
    0 ≤ calculate_keyword_match r j ∧ calculate_keyword_match r j ≤ 100 := by
  unfold calculate_keyword_match
  set jdWords := ((alphaTokens (lowerList j)).dedup).filter
    (fun w => !(STOP_WORDS.contains w)) with hjd
  by_cases h : jdWords = []
  · simp [h]
  · simp only [if_neg h]
    have hn : 0 < (jdWords.length : ℚ) := by
      have : jdWords.length ≠ 0 := fun hc => h (List.eq_nil_of_length_eq_zero hc)
      positivity
    have hle : ((jdWords.filter fun w =>
        ((alphaTokens (lowerList r)).dedup).contains w).length : ℚ) ≤
        (jdWords.length : ℚ) := by
      exact_mod_cast List.length_filter_le _ _
    have hratio0 : (0 : ℚ) ≤ (jdWords.filter fun w =>
        ((alphaTokens (lowerList r)).dedup).contains w).length / (jdWords.length : ℚ) := by
      positivity
    have hratio1 : (jdWords.filter fun w =>
        ((alphaTokens (lowerList r)).dedup).contains w).length / (jdWords.length : ℚ) ≤ 1 :=
      (div_le_one hn).mpr hle
    constructor
    · exact Int.le_floor.mpr (by push_cast; nlinarith)
    · calc ⌊(jdWords.filter fun w =>
            ((alphaTokens (lowerList r)).dedup).contains w).length / (jdWords.length : ℚ) * 100⌋
          ≤ ⌊(100 : ℚ)⌋ := Int.floor_le_floor (by nlinarith)
      _ = 100 := by norm_num

theorem atsScoreCore_ge_eight (f : AtsInput) (h : f.matchScore = none) :
    8 ≤ atsScoreCore f := by
  unfold atsScoreCore
  rw [h]
  refine le_min ?_ (by norm_num)
  exact Int.le_floor.mpr (by exact_mod_cast atsBase_ge_eight f)

theorem atsScoreCore_ge_five (f : AtsInput) (m : Int) (h : f.matchScore = some m)
    (hm : 0 ≤ m) : 5 ≤ atsScoreCore f := by
  unfold atsScoreCore
  rw [h]
  refine le_min ?_ (by norm_num)
  refine Int.le_floor.mpr ?_
  have hb := atsBase_ge_eight f
  have hm' : (0 : ℚ) ≤ (m : ℚ) := by exact_mod_cast hm
  push_cast
  nlinarith

/-! ## Claim C1: the score is always inside [0, 100] -/

/-- C1: for every text and every optional job description,
`calculate_ats_score` returns an integer in [0, 100]; the final
`min(int(score), max_score)` step caps both the plain path and the
blending path, and every sub-factor contribution is non-negative. -/
theorem calculate_ats_score_in_range (text : List Char) (jd : Option (List Char)) :
    0 ≤ calculate_ats_score text jd ∧ calculate_ats_score text jd ≤ 100 := by
  constructor
  · cases jd with
    | none =>
      have h := atsScoreCore_ge_eight (featuresOf text none) rfl
      unfold calculate_ats_score
      omega
    | some j =>
      have h := atsScoreCore_ge_five (featuresOf text (some j))
        (calculate_keyword_match text j) rfl (keyword_match_range text j).1
      unfold calculate_ats_score
      omega
  · unfold calculate_ats_score atsScoreCore
    exact min_le_right _ _

/-! ## Claim C9: the score is never 0 -/

/-- C9: every text scores at least 8 without a job description (the skills
sub-factor contributes at least 5 and the word-count sub-factor at least 3),
at least 5 with one, and hence never 0. -/
theorem ats_score_lower_bound (text : List Char) :
    8 ≤ calculate_ats_score text none ∧
    (∀ jd, 5 ≤ calculate_ats_score text (some jd)) ∧
    0 < calculate_ats_score text none ∧
    ∀ jd, 0 < calculate_ats_score text (some jd) := by
  have h8 : 8 ≤ calculate_ats_score text none := by
    have := atsScoreCore_ge_eight (featuresOf text none) rfl
    unfold calculate_ats_score
    omega
  have h5 : ∀ jd, 5 ≤ calculate_ats_score text (some jd) := fun jd => by
    have := atsScoreCore_ge_five (featuresOf text (some jd))
      (calculate_keyword_match text jd) rfl (keyword_match_range text jd).1
    unfold calculate_ats_score
    omega
  exact ⟨h8, h5, by omega, fun jd => by have := h5 jd; omega⟩

/-! ## Claim C8: monotonicity in the sub-factors -/

/-- C8: the score is monotonically non-decreasing in each weighted
sub-factor: whenever two inputs have sub-factor point values with the
second at least the first, factor by factor (and keyword-match scores on
the same path, the second at least the first), the combined score of the
second input is at least that of the first.  Inputs agreeing on all
sub-factors except one satisfy these hypotheses with equality elsewhere. -/
theorem ats_score_monotone (f g : AtsInput)
    (hc : contactPts f.email f.phone ≤ contactPts g.email g.phone)
    (hs : sectionPts (sectionCount f.sections) ≤ sectionPts (sectionCount g.sections))
    (hk : skillPts f.skillTotal ≤ skillPts g.skillTotal)
    (he : eduPts f.edu ≤ eduPts g.edu)
    (hx : expPts f.expYears ≤ expPts g.expYears)
    (hw : wordCountPoints f.wc ≤ wordCountPoints g.wc)
    (hm : (f.matchScore = none ∧ g.matchScore = none) ∨
      ∃ mf mg, f.matchScore = some mf ∧ g.matchScore = some mg ∧ mf ≤ mg) :
    atsScoreCore f ≤ atsScoreCore g := by
  have hbase : atsBase f ≤ atsBase g := by
    unfold atsBase
    linarith
  unfold atsScoreCore
  rcases hm with ⟨h1, h2⟩ | ⟨mf, mg, h1, h2, hle⟩
  · rw [h1, h2]
    exact min_le_min (Int.floor_le_floor hbase) le_rfl
  · rw [h1, h2]
    refine min_le_min (Int.floor_le_floor ?_) le_rfl
    have hmm : (mf : ℚ) ≤ (mg : ℚ) := by exact_mod_cast hle
    nlinarith

theorem ats_score_monotone_witness :
    atsScoreCore ⟨false, false, ⟨false, false, false, false, false, false⟩, 0, false, 0, 0, none⟩ ≤
    atsScoreCore ⟨true, false, ⟨false, false, false, false, false, false⟩, 0, false, 0, 0, none⟩ :=
  ats_score_monotone _ _ (by norm_num [contactPts]) le_rfl le_rfl le_rfl le_rfl le_rfl
    (Or.inl ⟨rfl, rfl⟩)

/-! ## Claim C10: `extract_skills` technical categories -/

theorem TECH_SKILLS_fst_nodup : (TECH_SKILLS.map Prod.fst).Nodup := by decide

theorem extractSkillsTechnical_mem_shape (text : List Char) :
    ∀ p ∈ extractSkillsTechnical text,
      ∃ cv', cv' ∈ TECH_SKILLS ∧
        cv'.2.filter (fun sk => containsSub sk (lowerList text)) ≠ [] ∧
        p = (cv'.1, cv'.2.filter fun sk => containsSub sk (lowerList text)) := by
  intro p hp
  simp only [extractSkillsTechnical, List.mem_filterMap] at hp
  obtain ⟨cv', hcv', heq⟩ := hp
  by_cases hne : cv'.2.filter (fun sk => containsSub sk (lowerList text)) = []
  · rw [if_pos hne] at heq
    exact absurd heq (by simp)
  · rw [if_neg hne] at heq
    exact ⟨cv', hcv', hne, (Option.some_inj.mp heq).symm⟩

/-- C10: the technical mapping of `extract_skills` has an entry for a
category exactly when some skill of that category occurs as a substring of
the lower-cased text; each present entry carries exactly the list of
matched skills, which is never empty (categories without matches are
omitted rather than mapped to an empty list). -/
theorem extract_skills_categories (text : List Char) (cv : String × List (List Char))
    (hcv : cv ∈ TECH_SKILLS) :
    (∀ p ∈ extractSkillsTechnical text, p.2 ≠ []) ∧
    (((cv.1, cv.2.filter fun sk => containsSub sk (lowerList text)) ∈
        extractSkillsTechnical text) ↔
      ∃ sk ∈ cv.2, containsSub sk (lowerList text) = true) ∧
    ∀ ls, (cv.1, ls) ∈ extractSkillsTechnical text →
      ls = cv.2.filter (fun sk => containsSub sk (lowerList text)) ∧ ls ≠ [] := by
  have hinj := List.inj_on_of_nodup_map TECH_SKILLS_fst_nodup
  refine ⟨?_, ⟨?_, ?_⟩, ?_⟩
  · intro p hp
    obtain ⟨cv', _, hne, hpe⟩ := extractSkillsTechnical_mem_shape text p hp
    rw [hpe]
    exact hne
  · intro h
    obtain ⟨cv', hcv', hne, hpe⟩ := extractSkillsTechnical_mem_shape text _ h
    injection hpe with hfst hsnd
    have hcc : cv = cv' := hinj hcv hcv' hfst
    have hne' : cv.2.filter (fun sk => containsSub sk (lowerList text)) ≠ [] := by
      rw [hcc]; exact hne
    obtain ⟨x, hx⟩ := List.exists_mem_of_ne_nil _ hne'
    rw [List.mem_filter] at hx
    exact ⟨x, hx.1, hx.2⟩
  · rintro ⟨sk, hsk, hc⟩
    have hmemf : sk ∈ cv.2.filter (fun sk => containsSub sk (lowerList text)) :=
      List.mem_filter.mpr ⟨hsk, hc⟩
    have hne : cv.2.filter (fun sk => containsSub sk (lowerList text)) ≠ [] :=
      List.ne_nil_of_mem hmemf
    simp only [extractSkillsTechnical, List.mem_filterMap]
    exact ⟨cv, hcv, by rw [if_neg hne]⟩
  · intro ls hls
    obtain ⟨cv', hcv', hne, hpe⟩ := extractSkillsTechnical_mem_shape text _ hls
    injection hpe with hfst hsnd
    have hcc : cv = cv' := hinj hcv hcv' hfst
    rw [hcc]
    exact ⟨hsnd, by rw [hsnd]; exact hne⟩

theorem extract_skills_categories_witness :
    ("languages",
      (["python", "java", "javascript", "typescript", "c++", "c#", "ruby", "php",
        "swift", "kotlin", "go", "rust", "scala"].map String.toList).filter
        (fun sk => containsSub sk (lowerList "python".toList))) ∈
      extractSkillsTechnical "python".toList := by
  have h := (extract_skills_categories "python".toList
    ("languages", ["python", "java", "javascript", "typescript", "c++", "c#", "ruby",
      "php", "swift", "kotlin", "go", "rust", "scala"].map String.toList)
    (by decide)).2.1
  exact h.mpr ⟨"python".toList, by decide, by decide⟩
